import Mathlib

/-!
Shallow embedding of the dumbcas archive pipeline (archive.go) and of the
nodes-table AddEntry algorithm (mockNodesTable in the test file), together
with models of the Go standard-library helpers the code calls
(strings.Replace, path.Base, path.Clean, path.IsAbs, path.Join).

Conventions of the embedding:
* Go int64 values (sizes, timestamps, counters) are modelled as Int.
* The filesystem is an explicit parameter: stat results and the lazy
  directory-tree enumeration (EnumerateTree, whose source file is not part
  of the given sources) are inputs, a channel is modelled as the list of
  the values it delivers, and a single channel receive takes the head.
* sha1FilePath is modelled as a function from path to Except: computing a
  digest either fails with an error message or yields the digest string.
* The InterruptedChannel never fires in this model: all claims below are
  about uninterrupted runs.
* Mutation through pointers (the EntryCache record, the Stats counters)
  becomes explicit state passing.
-/

/-- Result classification of CasTable.AddEntry / AddBytes: the Go call sites
distinguish err == nil, os.IsExist(err), and any other error. -/
inductive AddEntryResult where
  | ok
  | alreadyExists
  | err (msg : String)
deriving DecidableEq

/-- Statistics of the on-going process (struct Stats in archive.go); every
field is an int64 counter in the source. -/
structure Stats where
  errors : Int := 0
  found : Int := 0
  totalSize : Int := 0
  nbHashed : Int := 0
  bytesHashed : Int := 0
  nbNotHashed : Int := 0
  bytesNotHashed : Int := 0
  nbArchived : Int := 0
  bytesArchived : Int := 0
  nbNotArchived : Int := 0
  bytesNotArchived : Int := 0
deriving DecidableEq

/-- The part of os.FileInfo the code reads: Size(), ModTime().Unix(), IsDir(). -/
structure StatInfo where
  size : Int
  modTime : Int
  isDir : Bool
deriving DecidableEq

/-- struct inputItem of archive.go: fullPath, relPath and the embedded os.FileInfo. -/
structure inputItem where
  fullPath : String
  relPath : String
  info : StatInfo
deriving DecidableEq

/-- One value delivered by the EnumerateTree channel: a full path with its
FileInfo, or an enumeration error. -/
structure TreeItem where
  FullPath : String
  FileInfo : StatInfo
  Error : Option String
deriving DecidableEq

/-- The filesystem surface enumerateInputs touches: os.Stat, and EnumerateTree
(modelled from the spec: the tree walker of the repository whose source file is
not among the given sources; it lazily delivers the entries, files and
directories, found under a directory; the list is the sequence of channel
deliveries). -/
structure FileSystem where
  stat : String → Except String StatInfo
  EnumerateTree : String → List TreeItem

/-- struct EntryCache: the per-path cache record updateFile refreshes. -/
structure EntryCache where
  Sha1 : String
  Size : Int
  Timestamp : Int
  LastTested : Int
deriving DecidableEq

/-- The zero-valued record FindInCache inserts for an unknown path. -/
def zeroEntryCache : EntryCache := ⟨"", 0, 0, 0⟩

/-- struct itemToArchive of archive.go. -/
structure itemToArchive where
  fullPath : String
  relPath : String
  sha1 : String
  size : Int
deriving DecidableEq

/-- struct Node: a manifest digest plus a comment. -/
structure Node where
  Entry : String
  Comment : String
deriving DecidableEq

/-! ### Go standard-library helpers used by archive.go -/

/-- Core replacement loop of Go strings.Replace for a nonempty pattern:
replace up to bound non-overlapping occurrences of old, scanning left to
right. -/
def replaceCore (old new : List Char) : List Char → Nat → List Char
  | s, 0 => s
  | [], _ + 1 => []
  | c :: rest, bound + 1 =>
    if old ≠ [] ∧ (c :: rest).take old.length = old then
      new ++ replaceCore old new ((c :: rest).drop old.length) bound
    else
      c :: replaceCore old new rest (bound + 1)
termination_by s _ => s.length
decreasing_by
  · simp only [List.length_drop]
    have : 0 < old.length := List.length_pos.mpr (by tauto)
    simp at *
    omega
  · simp

/-- Go strings.Replace(s, old, new, n): returns s unchanged when old == new
or n == 0 (the fast path the archive code always hits, since it passes
n = 0); otherwise replaces the first n occurrences, all of them when n < 0.
The empty-pattern boundary-insertion case of Go is not modelled (the code
only ever passes old = "/"). -/
def stringsReplace (s old new : String) (n : Int) : String :=
  if old = new ∨ n = 0 then s
  else ⟨replaceCore old.data new.data s.data (if n < 0 then s.data.length else n.toNat)⟩

/-- Go path.IsAbs: len(path) > 0 and path[0] == '/'. -/
def pathIsAbs (p : String) : Bool :=
  match p.data with
  | [] => false
  | c :: _ => c = '/'

/-- Element processing of Go path.Clean: drop empty and "." components,
let ".." pop the previous component (or survive at the front of a relative
path, or vanish at the root of a rooted path). acc holds the kept
components in reverse. -/
def cleanComponents (rooted : Bool) : List String → List String → List String
  | [], acc => acc.reverse
  | p :: rest, acc =>
    if p = "" ∨ p = "." then cleanComponents rooted rest acc
    else if p = ".." then
      match acc with
      | a :: acc2 =>
        if a = ".." then cleanComponents rooted rest (p :: a :: acc2)
        else cleanComponents rooted rest acc2
      | [] =>
        if rooted then cleanComponents rooted rest []
        else cleanComponents rooted rest [".."]
    else cleanComponents rooted rest (p :: acc)

/-- Splitting a character list at every slash, keeping empty components
(the component view of a path that Clean walks). -/
def splitSlashAux : List Char → List Char → List String
  | [], cur => [⟨cur.reverse⟩]
  | c :: rest, cur =>
    if c = '/' then ⟨cur.reverse⟩ :: splitSlashAux rest []
    else splitSlashAux rest (c :: cur)

/-- Slash-separated components of a string. -/
def splitSlash (p : String) : List String := splitSlashAux p.data []

/-- Go path.Clean: lexical cleaning of a slash-separated path. -/
def pathClean (p : String) : String :=
  if p = "" then "."
  else
    let rooted := pathIsAbs p
    let comps := cleanComponents rooted (splitSlash p) []
    let out := String.intercalate "/" comps
    if rooted then (if out = "" then "/" else "/" ++ out)
    else (if out = "" then "." else out)

/-- Go path.Join: drop empty elements, join the rest with "/", Clean the
result; all-empty input gives "". -/
def pathJoin (elem : List String) : String :=
  let kept := elem.filter (fun e => e ≠ "")
  if kept = [] then "" else pathClean (String.intercalate "/" kept)

/-- Go path.Base: strip trailing slashes, keep the part after the last
slash; empty input gives ".", all-slash input gives "/". -/
def pathBase (p : String) : String :=
  if p = "" then "."
  else
    let stripped := p.data.reverse.dropWhile (fun c => c = '/')
    let base := stripped.takeWhile (fun c => c ≠ '/')
    if base = [] then "/" else ⟨base.reverse⟩

/-! ### archive.go: updateFile -/

/-- updateFile of archive.go. Takes the record found in the cache and the
item; returns the updated record, the wasHashed flag and the error slot.
sha1FilePath stands for reading and hashing the file contents. -/
def updateFile (sha1FilePath : String → Except String String) (now : Int)
    (cache : EntryCache) (item : inputItem) : EntryCache × Bool × Option String :=
  let size := item.info.size
  let timestamp := item.info.modTime
  if cache.Size = size ∧ cache.Timestamp = timestamp then
    ({ cache with LastTested := now }, false, none)
  else
    match sha1FilePath item.fullPath with
    | .error e => (cache, false, some e)
    | .ok digest => (⟨digest, size, timestamp, now⟩, true, none)

/-! ### archive.go: enumerateInputs -/

/-- Body of the per-input loop of enumerateInputs. The source receives at
most one value from the EnumerateTree channel per directory input (its
select statement is not inside a loop), so the model takes the head of the
delivery list; file inputs are emitted directly with relPath = path.Base. -/
def enumerateStep (fs : FileSystem) (acc : Stats × List inputItem)
    (input : String) : Stats × List inputItem :=
  let s := acc.1
  let out := acc.2
  match fs.stat input with
  | .error _ => ({ s with errors := s.errors + 1 }, out)
  | .ok stat =>
    if stat.isDir then
      match fs.EnumerateTree input with
      | [] => (s, out)
      | item :: _ =>
        match item.Error with
        | some _ => ({ s with errors := s.errors + 1 }, out)
        | none =>
          if item.FileInfo.isDir then (s, out)
          else
            ({ s with found := s.found + 1 },
             out ++ [⟨item.FullPath, item.FullPath.drop (input.length + 1), item.FileInfo⟩])
    else
      ({ s with found := s.found + 1, totalSize := s.totalSize + stat.size },
       out ++ [⟨input, pathBase input, stat⟩])

/-- enumerateInputs of archive.go: processes the inputs serially, returning
the final counters and the sequence of items sent on the output channel. -/
def enumerateInputs (fs : FileSystem) (s : Stats) (inputs : List String) :
    Stats × List inputItem :=
  inputs.foldl (enumerateStep fs) (s, [])

/-! ### archive.go: hashInputs -/

/-- State of the hash stage: counters, the cache contents (FindInCache view:
a total map defaulting to the zero record), and the items sent downstream. -/
structure HashState where
  stats : Stats
  cache : String → EntryCache
  out : List itemToArchive

/-- One iteration of the hashInputs receive loop. none models the panic on
a directory item; a failing updateFile is eaten (error counter, continue). -/
def hashStep (sha1FilePath : String → Except String String) (now : Int)
    (st : HashState) (item : inputItem) : Option HashState :=
  if item.info.isDir then none
  else
    let size := item.info.size
    let cachedItem := st.cache item.fullPath
    match updateFile sha1FilePath now cachedItem item with
    | (_, _, some _) =>
      some { st with stats := { st.stats with errors := st.stats.errors + 1 } }
    | (c, wasHashed, none) =>
      let stats :=
        if wasHashed then
          { st.stats with nbHashed := st.stats.nbHashed + 1,
                          bytesHashed := st.stats.bytesHashed + size }
        else
          { st.stats with nbNotHashed := st.stats.nbNotHashed + 1,
                          bytesNotHashed := st.stats.bytesNotHashed + size }
      some { stats := stats,
             cache := Function.update st.cache item.fullPath c,
             out := st.out ++ [⟨item.fullPath, item.relPath, c.Sha1, size⟩] }

/-- hashInputs of archive.go over the delivered input items; none when the
internal-invariant panic fires. -/
def hashInputs (sha1FilePath : String → Except String String) (now : Int)
    (st : HashState) : List inputItem → Option HashState
  | [] => some st
  | item :: rest =>
    match hashStep sha1FilePath now st item with
    | none => none
    | some st2 => hashInputs sha1FilePath now st2 rest

/-! ### archive.go: archiveItem, archiveInputs tail, driver -/

/-- archiveItem of archive.go. openResult is some msg when os.Open failed;
addEntry classifies the CasTable.AddEntry error as at the call site. -/
def archiveItem (s : Stats) (openResult : Option String)
    (addEntry : AddEntryResult) (item : itemToArchive) : Stats :=
  match openResult with
  | some _ => { s with errors := s.errors + 1 }
  | none =>
    match addEntry with
    | .alreadyExists =>
      { s with nbNotArchived := s.nbNotArchived + 1,
               bytesNotArchived := s.bytesNotArchived + item.size }
    | .ok =>
      { s with nbArchived := s.nbArchived + 1,
               bytesArchived := s.bytesArchived + item.size }
    | .err _ => { s with errors := s.errors + 1 }

/-- The receive loop of archiveInputs restricted to its counter effects:
each delivered item is archived in turn, never aborting the loop. -/
def archiveLoop (s : Stats) :
    List (itemToArchive × Option String × AddEntryResult) → Stats
  | [] => s
  | (item, o, r) :: rest => archiveLoop (archiveItem s o r item) rest

/-- Tail of archiveInputs, after its receive loop ends: serialize the root
manifest (marshalResult, carrying the bytes on success), AddBytes it into
the CAS, and return the final counters together with the digest string sent
on the output channel; failures send the empty string. -/
def finishArchive (s : Stats) (marshalResult : Except String (List Nat))
    (addBytes : List Nat → String × AddEntryResult) : Stats × String :=
  match marshalResult with
  | .error _ => ({ s with errors := s.errors + 1 }, "")
  | .ok data =>
    let r := addBytes data
    match r.2 with
    | .alreadyExists =>
      ({ s with nbNotArchived := s.nbNotArchived + 1,
                bytesNotArchived := s.bytesNotArchived + data.length }, r.1)
    | .ok =>
      ({ s with nbArchived := s.nbArchived + 1,
                bytesArchived := s.bytesArchived + data.length }, r.1)
    | .err _ => ({ s with errors := s.errors + 1 }, "")

/-- Outcome of one delivery to the driver loop of archiveRun.main: success
carries the Node registered through nodes.AddEntry and the basename it is
registered under, and means main returns nil; failure means main returns
the given error and registers nothing. -/
inductive DriverResult where
  | success (registered : Node) (basename : String)
  | failure (msg : String)
deriving DecidableEq

/-- The driver of archiveRun.main handling one receive on the entry channel:
received = none models the channel being closed (ok == false), otherwise
the delivered digest string. -/
def driverStep (s : Stats) (comment : String) (toArchive : String)
    (received : Option String) : DriverResult :=
  match received with
  | none =>
    if s.errors ≠ 0 then .failure ("Got " ++ toString s.errors ++ " errors!")
    else .failure "Was likely interrupted."
  | some item =>
    if item ≠ "" then .success ⟨item, comment⟩ (pathBase toArchive)
    else if s.errors ≠ 0 then .failure ("Got " ++ toString s.errors ++ " errors!")
    else .failure "Unexpected error."

/-! ### archive.go: cleanupList -/

/-- Per-element transform of cleanupList: expand environment variables,
call strings.Replace with count 0, resolve relative paths against relDir,
clean. expandEnv models os.ExpandEnv; sep is filepath.Separator. -/
def cleanupItem (expandEnv : String → String) (sep : Char) (relDir : String)
    (item : String) : String :=
  let item1 := expandEnv item
  let item2 := stringsReplace item1 "/" (String.singleton sep) 0
  let item3 := if pathIsAbs item2 then item2 else pathJoin [relDir, item2]
  pathClean item3

/-- cleanupList of archive.go, applied to every element of the list. -/
def cleanupList (expandEnv : String → String) (sep : Char) (relDir : String)
    (inputs : List String) : List String :=
  inputs.map (cleanupItem expandEnv sep relDir)

/-! ### Nodes table (mockNodesTable.AddEntry of the test file) -/

/-- The entries map of mockNodesTable, as an association list; minsert
below gives it Go-map update semantics. -/
abbrev NodeMap := List (String × Node)

/-- The tags directory name the nodes table binds basenames under. -/
def tagsName : String := "tags"

/-- Go map read m.entries[k]. -/
def mlookup : NodeMap → String → Option Node
  | [], _ => none
  | (k2, v) :: rest, k => if k2 = k then some v else mlookup rest k

/-- Go map write m.entries[k] = v: overwrite the binding or append it. -/
def minsert : NodeMap → String → Node → NodeMap
  | [], k, v => [(k, v)]
  | (k2, v2) :: rest, k, v =>
    if k2 = k then (k, v) :: rest else (k2, v2) :: minsert rest k v

/-- The nodeName built by AddEntry: stamp + "_" + name, plus "(<n>)" when
the suffix is nonzero. -/
def nodeName (stamp name : String) (suffix : Nat) : String :=
  if suffix = 0 then stamp ++ "_" ++ name
  else stamp ++ "_" ++ name ++ "(" ++ Nat.repr suffix ++ ")"

/-- The nodePath candidate: monthName + "/" + nodeName. -/
def nodePath (month stamp name : String) (suffix : Nat) : String :=
  month ++ "/" ++ nodeName stamp name suffix

/-- The candidate loop of AddEntry: starting at the given suffix, return the
first suffix whose nodePath is free. The source loop is unbounded; the fuel
m.length + 1 used below always suffices because candidates never repeat. -/
def findFreeSuffix (m : NodeMap) (month stamp name : String) : Nat → Nat → Nat
  | 0, suffix => suffix
  | fuel + 1, suffix =>
    if mlookup m (nodePath month stamp name suffix) = none then suffix
    else findFreeSuffix m month stamp name fuel (suffix + 1)

/-- mockNodesTable.AddEntry: claim the first free time-bucketed nodePath for
the node, then bind tags/<name> to it (overwriting). month and stamp are the
two UTC time formats of the call moment; the claimed relpath is returned
with the new table. -/
def AddEntry (m : NodeMap) (node : Node) (name month stamp : String) :
    String × NodeMap :=
  let suffix := findFreeSuffix m month stamp name (m.length + 1) 0
  let p := nodePath month stamp name suffix
  (p, minsert (minsert m p node) (tagsName ++ "/" ++ name) node)

/-! ### Decimal representation: a left inverse for Nat.repr

Nat.repr is the fmt.Sprintf("(%d)") model; its injectivity underlies the
uniqueness of node names and is proved here via a digit-value left inverse. -/

/-- Numeric value of a decimal digit character. -/
def digitVal (c : Char) : Nat := c.toNat - 48

/-- Value of a big-endian decimal digit list. -/
def digitsVal (l : List Char) : Nat := l.foldl (fun a c => a * 10 + digitVal c) 0

/-- Structural form of Nat.toDigits 10: most-significant digits first. -/
def toDigitsRec (n : Nat) : List Char :=
  if h : n / 10 = 0 then [Nat.digitChar (n % 10)]
  else toDigitsRec (n / 10) ++ [Nat.digitChar (n % 10)]
termination_by n
decreasing_by
  exact Nat.div_lt_self (Nat.pos_of_ne_zero (fun h0 => h (by simp [h0]))) (by omega)

/-- Size contributed by one input to the totalSize counter according to the
code: only an input that stats as a regular file contributes. -/
def statFileSize (fs : FileSystem) (input : String) : Int :=
  match fs.stat input with
  | .error _ => 0
  | .ok stat => if stat.isDir then 0 else stat.size

/-- Concrete filesystem for evaluations: a directory /d holding exactly the
two regular files /d/a and /d/b, and nothing else. -/
def exTreeFS : FileSystem where
  stat := fun p =>
    if p = "/d" then .ok ⟨0, 0, true⟩
    else if p = "/d/a" then .ok ⟨3, 5, false⟩
    else if p = "/d/b" then .ok ⟨4, 6, false⟩
    else .error "no such file or directory"
  EnumerateTree := fun p =>
    if p = "/d" then
      [⟨"/d/a", ⟨3, 5, false⟩, none⟩, ⟨"/d/b", ⟨4, 6, false⟩, none⟩]
    else []

theorem digitVal_digitChar (d : Nat) (h : d < 10) :
    digitVal (Nat.digitChar d) = d := by
  interval_cases d <;> rfl

theorem digitsVal_append_singleton (l : List Char) (c : Char) :
    digitsVal (l ++ [c]) = digitsVal l * 10 + digitVal c := by
  simp [digitsVal, List.foldl_append]

theorem toDigitsCore_eq_toDigitsRec (fuel : Nat) :
    ∀ (n : Nat) (acc : List Char), n < fuel →
      Nat.toDigitsCore 10 fuel n acc = toDigitsRec n ++ acc := by
  induction fuel with
  | zero => intro n acc h; omega
  | succ fuel ih =>
    intro n acc h
    by_cases h0 : n / 10 = 0
    · simp [Nat.toDigitsCore, h0, toDigitsRec]
    · have h1 : 0 < n := Nat.pos_of_ne_zero (fun he => h0 (by simp [he]))
      have hlt : n / 10 < fuel := by
        have := Nat.div_lt_self h1 (by omega : 1 < 10)
        omega
      rw [toDigitsRec, dif_neg h0]
      simp only [Nat.toDigitsCore, h0, if_false]
      rw [ih (n / 10) _ hlt]
      simp

theorem digitsVal_toDigitsRec (n : Nat) : digitsVal (toDigitsRec n) = n := by
  induction n using Nat.strong_induction_on with
  | _ n ih =>
    rw [toDigitsRec]
    by_cases h0 : n / 10 = 0
    · have hn : n < 10 := by
        have := Nat.div_add_mod n 10
        have := Nat.mod_lt n (show 0 < 10 by omega)
        omega
      rw [dif_pos h0, show n % 10 = n from Nat.mod_eq_of_lt hn]
      simp [digitsVal, digitVal_digitChar n hn]
    · have h1 : 0 < n := Nat.pos_of_ne_zero (fun he => h0 (by simp [he]))
      have hlt : n / 10 < n := Nat.div_lt_self h1 (by omega)
      rw [dif_neg h0, digitsVal_append_singleton, ih _ hlt,
        digitVal_digitChar _ (Nat.mod_lt n (by omega))]
      have := Nat.div_add_mod n 10
      omega

theorem natRepr_injective : Function.Injective Nat.repr := by
  intro a b h
  have hd : ∀ m : Nat, Nat.repr m = (toDigitsRec m).asString := by
    intro m
    show (Nat.toDigitsCore 10 (m + 1) m []).asString = _
    rw [toDigitsCore_eq_toDigitsRec (m + 1) m [] (Nat.lt_succ_self m),
      List.append_nil]
  rw [hd a, hd b] at h
  have hlist : toDigitsRec a = toDigitsRec b := congrArg String.data h
  have ha := digitsVal_toDigitsRec a
  rw [hlist, digitsVal_toDigitsRec] at ha
  omega

theorem nodeName_data (stamp name : String) (n : Nat) :
    (nodeName stamp name n).data =
      stamp.data ++ '_' :: name.data ++
        (if n = 0 then [] else '(' :: (Nat.repr n).data ++ [')']) := by
  by_cases h : n = 0 <;>
    simp [nodeName, h, String.data_append]

theorem nodePath_injective (month stamp name : String) :
    Function.Injective (nodePath month stamp name) := by
  intro a b h
  have hd := congrArg String.data h
  simp only [nodePath, String.data_append, nodeName_data] at hd
  by_cases ha : a = 0 <;> by_cases hb : b = 0 <;>
    simp [ha, hb] at hd ⊢
  exact natRepr_injective (String.ext hd)

theorem mlookup_minsert_self (m : NodeMap) (k : String) (v : Node) :
    mlookup (minsert m k v) k = some v := by
  induction m with
  | nil => simp [minsert, mlookup]
  | cons hd rest ih =>
    by_cases h : hd.1 = k
    · simp [minsert, h, mlookup]
    · simp [minsert, h, mlookup, ih]

theorem mlookup_minsert_ne (m : NodeMap) (k k2 : String) (v : Node)
    (h : k2 ≠ k) : mlookup (minsert m k v) k2 = mlookup m k2 := by
  induction m with
  | nil => simp [minsert, mlookup, Ne.symm h]
  | cons hd rest ih =>
    by_cases hh : hd.1 = k
    · simp [minsert, hh, mlookup, h, Ne.symm h]
    · by_cases hk : hd.1 = k2 <;> simp [minsert, hh, mlookup, hk, h, ih]

theorem mlookup_eq_none_iff (m : NodeMap) (k : String) :
    mlookup m k = none ↔ k ∉ m.map Prod.fst := by
  induction m with
  | nil => simp [mlookup]
  | cons hd rest ih =>
    by_cases h : hd.1 = k
    · simp [mlookup, h]
    · simp [mlookup, h, ih, Ne.symm h]

theorem exists_free_suffix (m : NodeMap) (month stamp name : String) :
    ∃ i, i ≤ m.length ∧ mlookup m (nodePath month stamp name i) = none := by
  by_contra hc
  push_neg at hc
  have hmem : ∀ i, i ≤ m.length → nodePath month stamp name i ∈ m.map Prod.fst := by
    intro i hi
    have := hc i hi
    by_contra hnot
    exact this ((mlookup_eq_none_iff m _).mpr hnot)
  have hsub : (Finset.range (m.length + 1)).image (nodePath month stamp name) ⊆
      (m.map Prod.fst).toFinset := by
    intro x hx
    rw [Finset.mem_image] at hx
    obtain ⟨i, hi, rfl⟩ := hx
    rw [Finset.mem_range] at hi
    exact List.mem_toFinset.mpr (hmem i (by omega))
  have hcard := Finset.card_le_card hsub
  rw [Finset.card_image_of_injective _ (nodePath_injective month stamp name),
    Finset.card_range] at hcard
  have h1 := List.toFinset_card_le (m.map Prod.fst)
  have h2 : (m.map Prod.fst).length = m.length := List.length_map _ _
  omega

theorem findFreeSuffix_spec (m : NodeMap) (month stamp name : String) :
    ∀ (fuel suffix : Nat),
      (∃ i, suffix ≤ i ∧ i < suffix + fuel ∧
        mlookup m (nodePath month stamp name i) = none) →
      suffix ≤ findFreeSuffix m month stamp name fuel suffix ∧
      mlookup m (nodePath month stamp name
        (findFreeSuffix m month stamp name fuel suffix)) = none ∧
      ∀ i, suffix ≤ i → i < findFreeSuffix m month stamp name fuel suffix →
        mlookup m (nodePath month stamp name i) ≠ none := by
  intro fuel
  induction fuel with
  | zero =>
    intro suffix ⟨i, h1, h2, _⟩
    omega
  | succ fuel ih =>
    intro suffix hex
    by_cases h0 : mlookup m (nodePath month stamp name suffix) = none
    · have hval : findFreeSuffix m month stamp name (fuel + 1) suffix = suffix := by
        simp [findFreeSuffix, h0]
      rw [hval]
      exact ⟨Nat.le_refl _, h0, fun i hi1 hi2 => by omega⟩
    · have hstep : findFreeSuffix m month stamp name (fuel + 1) suffix =
          findFreeSuffix m month stamp name fuel (suffix + 1) := by
        simp [findFreeSuffix, h0]
      obtain ⟨i, h1, h2, h3⟩ := hex
      have hne : i ≠ suffix := fun he => h0 (he ▸ h3)
      have := ih (suffix + 1) ⟨i, by omega, by omega, h3⟩
      rw [hstep]
      refine ⟨by omega, this.2.1, ?_⟩
      intro j hj1 hj2
      by_cases hj : j = suffix
      · exact hj ▸ h0
      · exact this.2.2 j (by omega) hj2

theorem enumerateStep_no_dir (fs : FileSystem) (acc : Stats × List inputItem)
    (input : String) (h : ∀ item ∈ acc.2, item.info.isDir = false) :
    ∀ item ∈ (enumerateStep fs acc input).2, item.info.isDir = false := by
  intro item hmem
  rcases hstat : fs.stat input with e | stat
  · simp only [enumerateStep, hstat] at hmem
    exact h item hmem
  · rcases hdir : stat.isDir
    · simp only [enumerateStep, hstat, hdir, Bool.false_eq_true, if_false] at hmem
      rcases List.mem_append.mp hmem with hm | hm
      · exact h item hm
      · rw [List.mem_singleton.mp hm]
        exact hdir
    · rcases htree : fs.EnumerateTree input with _ | ⟨it0, rest0⟩
      · simp only [enumerateStep, hstat, hdir, htree, eq_self_iff_true, if_true] at hmem
        exact h item hmem
      · rcases herr : it0.Error with _ | msg
        · rcases hdir0 : it0.FileInfo.isDir
          · simp only [enumerateStep, hstat, hdir, htree, herr, hdir0, eq_self_iff_true,
              if_true, Bool.false_eq_true, if_false] at hmem
            rcases List.mem_append.mp hmem with hm | hm
            · exact h item hm
            · rw [List.mem_singleton.mp hm]
              exact hdir0
          · simp only [enumerateStep, hstat, hdir, htree, herr, hdir0, eq_self_iff_true,
              if_true] at hmem
            exact h item hmem
        · simp only [enumerateStep, hstat, hdir, htree, herr, eq_self_iff_true,
            if_true] at hmem
          exact h item hmem

theorem enumerateInputs_no_dir_aux (fs : FileSystem) (inputs : List String) :
    ∀ acc : Stats × List inputItem, (∀ item ∈ acc.2, item.info.isDir = false) →
      ∀ item ∈ (List.foldl (enumerateStep fs) acc inputs).2,
        item.info.isDir = false := by
  induction inputs with
  | nil => intro acc h; simpa using h
  | cons x rest ih =>
    intro acc h
    exact ih _ (enumerateStep_no_dir fs acc x h)

theorem hashStep_isSome (sha1FilePath : String → Except String String)
    (now : Int) (st : HashState) (item : inputItem)
    (h : item.info.isDir = false) :
    (hashStep sha1FilePath now st item).isSome = true := by
  unfold hashStep
  rw [h]
  simp only [Bool.false_eq_true, if_false]
  rcases hud : updateFile sha1FilePath now (st.cache item.fullPath) item with ⟨c, wh, e⟩
  rcases e <;> simp

theorem hashInputs_isSome (sha1FilePath : String → Except String String)
    (now : Int) :
    ∀ (items : List inputItem) (st : HashState),
      (∀ item ∈ items, item.info.isDir = false) →
      (hashInputs sha1FilePath now st items).isSome = true := by
  intro items
  induction items with
  | nil => intro st _; simp [hashInputs]
  | cons x rest ih =>
    intro st h
    have hx := hashStep_isSome sha1FilePath now st x (h x (by simp))
    unfold hashInputs
    rcases hs : hashStep sha1FilePath now st x with _ | st2
    · rw [hs] at hx; simp at hx
    · exact ih st2 (fun item hm => h item (List.mem_cons_of_mem _ hm))

theorem enumerateStep_totalSize (fs : FileSystem) (acc : Stats × List inputItem)
    (input : String) :
    (enumerateStep fs acc input).1.totalSize
      = acc.1.totalSize + statFileSize fs input := by
  unfold enumerateStep statFileSize
  rcases hstat : fs.stat input with e | stat
  · simp
  · by_cases hdir : stat.isDir
    · simp only [hdir, if_true]
      repeat' split
      all_goals simp
    · simp [hdir]

theorem enumerateInputs_totalSize_aux (fs : FileSystem) (inputs : List String) :
    ∀ acc : Stats × List inputItem,
      (List.foldl (enumerateStep fs) acc inputs).1.totalSize
        = acc.1.totalSize + (inputs.map (statFileSize fs)).sum := by
  induction inputs with
  | nil => intro acc; simp
  | cons x rest ih =>
    intro acc
    rw [List.foldl_cons, ih, enumerateStep_totalSize]
    simp [add_assoc]

/-- C5: when the cached record's Size and Timestamp match the item's size
and mtime, updateFile only refreshes LastTested, reports unchanged, and its
result does not depend on the file-contents reader at all; otherwise, when
hashing succeeds, it stores (digest, size, mtime, now) and reports
re-hashed. -/
theorem updateFile_fast_path (h1 h2 : String → Except String String)
    (now : Int) (cache : EntryCache) (item : inputItem) :
    (cache.Size = item.info.size ∧ cache.Timestamp = item.info.modTime →
      updateFile h1 now cache item = ({ cache with LastTested := now }, false, none)
      ∧ updateFile h1 now cache item = updateFile h2 now cache item)
    ∧ (¬(cache.Size = item.info.size ∧ cache.Timestamp = item.info.modTime) →
      ∀ digest, h1 item.fullPath = .ok digest →
        updateFile h1 now cache item
          = (⟨digest, item.info.size, item.info.modTime, now⟩, true, none)) := by
  constructor
  · intro hc
    constructor <;> simp [updateFile, hc]
  · intro hc digest hd
    simp [updateFile, hc, hd]

/-- Witness for C5 at a concrete record and item. -/
theorem updateFile_fast_path_witness :
    updateFile (fun _ => .ok "d0") 100 ⟨"s", 3, 5, 0⟩ ⟨"/f", "f", ⟨3, 5, false⟩⟩
      = (⟨"s", 3, 5, 100⟩, false, none) :=
  ((updateFile_fast_path (fun _ => .ok "d0") (fun _ => .error "e") 100
    ⟨"s", 3, 5, 0⟩ ⟨"/f", "f", ⟨3, 5, false⟩⟩).1 ⟨rfl, rfl⟩).1

/-- C9: when hashing the file's contents fails, updateFile returns the
error and the cache record with every field exactly as it was. -/
theorem updateFile_error_preserves (h : String → Except String String)
    (now : Int) (cache : EntryCache) (item : inputItem) (e : String)
    (hfail : h item.fullPath = .error e)
    (hne : ¬(cache.Size = item.info.size ∧ cache.Timestamp = item.info.modTime)) :
    updateFile h now cache item = (cache, false, some e) := by
  simp [updateFile, hne, hfail]

/-- Witness for C9 at a concrete record and item. -/
theorem updateFile_error_preserves_witness :
    updateFile (fun _ => .error "io") 100 ⟨"s", 3, 5, 7⟩ ⟨"/f", "f", ⟨4, 5, false⟩⟩
      = (⟨"s", 3, 5, 7⟩, false, some "io") :=
  updateFile_error_preserves (fun _ => .error "io") 100 ⟨"s", 3, 5, 7⟩
    ⟨"/f", "f", ⟨4, 5, false⟩⟩ "io" rfl (by decide)

/-- C7: archiveItem adds to the archived counters on ok, to the skipped
counters on already-exists (no error recorded), and increments the error
counter on an open failure or any other AddEntry error; the stage loop
always continues with the remaining items. -/
theorem archiveItem_cases (s : Stats) (item : itemToArchive)
    (o : Option String) (r : AddEntryResult) :
    (∀ msg, o = some msg → archiveItem s o r item = { s with errors := s.errors + 1 })
    ∧ (o = none → r = .ok → archiveItem s o r item
        = { s with nbArchived := s.nbArchived + 1,
                   bytesArchived := s.bytesArchived + item.size })
    ∧ (o = none → r = .alreadyExists → archiveItem s o r item
        = { s with nbNotArchived := s.nbNotArchived + 1,
                   bytesNotArchived := s.bytesNotArchived + item.size })
    ∧ (∀ msg, o = none → r = .err msg → archiveItem s o r item
        = { s with errors := s.errors + 1 })
    ∧ (∀ rest, archiveLoop s ((item, o, r) :: rest)
        = archiveLoop (archiveItem s o r item) rest) := by
  refine ⟨?_, ?_, ?_, ?_, ?_⟩ <;> intros <;> subst_vars <;> simp [archiveItem, archiveLoop]

/-- Witness for C7 at a concrete item. -/
theorem archiveItem_cases_witness :
    archiveItem {} none .ok ⟨"/f", "f", "d", 8⟩
      = { nbArchived := 1, bytesArchived := 8 } :=
  (archiveItem_cases {} ⟨"/f", "f", "d", 8⟩ none .ok).2.1 rfl rfl

/-- C6: a marshal failure, or a store failure other than already-exists,
makes archiveInputs emit the empty-digest sentinel, and on receiving the
empty string the driver returns an error without registering any node. -/
theorem archiveInputs_empty_sentinel (s : Stats)
    (addBytes : List Nat → String × AddEntryResult)
    (comment toArchive msg : String) :
    finishArchive s (.error msg) addBytes = ({ s with errors := s.errors + 1 }, "")
    ∧ (∀ data sha m2, addBytes data = (sha, .err m2) →
        finishArchive s (.ok data) addBytes = ({ s with errors := s.errors + 1 }, ""))
    ∧ (∃ m3, driverStep s comment toArchive (some "") = .failure m3) := by
  refine ⟨rfl, ?_, ?_⟩
  · intro data sha m2 hab
    simp [finishArchive, hab]
  · by_cases he : s.errors = 0
    · exact ⟨"Unexpected error.", by simp [driverStep, he]⟩
    · exact ⟨"Got " ++ toString s.errors ++ " errors!", by simp [driverStep, he]⟩

/-- Witness for C6 at a concrete failing store. -/
theorem archiveInputs_empty_sentinel_witness :
    finishArchive {} (.ok [1, 2]) (fun _ => ("dd", .err "disk full"))
      = ({ errors := 1 }, "") :=
  (archiveInputs_empty_sentinel {} (fun _ => ("dd", .err "disk full"))
    "c" "/t" "m").2.1 [1, 2] "dd" "disk full" rfl

/-- C2 counterexample: a run whose pipeline delivers a non-empty manifest
digest while the error counter is 1 makes the driver register the node and
return nil (success), not an error as the claim states. -/
theorem driver_success_despite_errors :
    driverStep { errors := 1 } "note" "/tmp/list.txt" (some "da39a3ee")
      = .success ⟨"da39a3ee", "note"⟩ "list.txt" := by
  decide

/-- C2 amended: when a non-empty digest is delivered, archiveRun.main
registers the node and returns nil regardless of the error counter; a
non-zero error counter produces a failure return only when the channel
closes without an item or delivers the empty-digest sentinel. -/
theorem driver_error_check_only_without_digest (s : Stats)
    (comment toArchive d : String) :
    (d ≠ "" → driverStep s comment toArchive (some d)
      = .success ⟨d, comment⟩ (pathBase toArchive))
    ∧ (s.errors ≠ 0 →
        driverStep s comment toArchive (some "")
          = .failure ("Got " ++ toString s.errors ++ " errors!")
        ∧ driverStep s comment toArchive none
          = .failure ("Got " ++ toString s.errors ++ " errors!")) := by
  constructor
  · intro hd
    simp [driverStep, hd]
  · intro he
    constructor <;> simp [driverStep, he]

/-- Witness for the amended C2 at a concrete digest and error count. -/
theorem driver_error_check_only_without_digest_witness :
    driverStep { errors := 2 } "c" "/t/l.txt" (some "abc")
      = .success ⟨"abc", "c"⟩ "l.txt" :=
  (driver_error_check_only_without_digest { errors := 2 } "c" "/t/l.txt" "abc").1
    (by decide)

/-- C1: evaluation of enumerateInputs on a directory holding the two
regular files /d/a and /d/b. Only the first tree item is emitted; /d/b is
dropped, because the source's select statement receives a single value per
directory input instead of draining the tree. The emitted item does carry
relpath = fullpath with the directory prefix and separator cut off. -/
theorem enumerateInputs_single_receive :
    (enumerateInputs exTreeFS {} ["/d"]).2 = [⟨"/d/a", "a", ⟨3, 5, false⟩⟩] := by
  decide

/-- C3: evaluation of cleanupList with the native separator taken as a
backslash. The element "a/b" keeps its forward slashes (becoming "/r/a/b"
after resolution against relDir = "/r") because strings.Replace is called
with count 0, which replaces nothing; under the claim it would have become
the backslash form. -/
theorem cleanupList_separator_noop :
    cleanupList id '\\' "/r" ["a/b"] = ["/r/a/b"] := by
  decide

/-- C8: every item enumerateInputs delivers has IsDir false, and hashInputs
run on such a delivery never reaches its directory panic (it returns a
state for every input list, filesystem, hasher and starting state). -/
theorem enumerateInputs_eats_directories (fs : FileSystem) (s0 : Stats)
    (inputs : List String) (sha1FilePath : String → Except String String)
    (now : Int) (stats0 : Stats) (cache0 : String → EntryCache)
    (out0 : List itemToArchive) :
    (∀ item ∈ (enumerateInputs fs s0 inputs).2, item.info.isDir = false)
    ∧ (hashInputs sha1FilePath now ⟨stats0, cache0, out0⟩
        (enumerateInputs fs s0 inputs).2).isSome = true := by
  have hnd := enumerateInputs_no_dir_aux fs inputs (s0, []) (by simp)
  exact ⟨hnd, hashInputs_isSome sha1FilePath now _ _ hnd⟩

/-- Witness for C8 on the concrete example filesystem. -/
theorem enumerateInputs_eats_directories_witness :
    (hashInputs (fun _ => .ok "d") 0 ⟨{}, fun _ => zeroEntryCache, []⟩
      (enumerateInputs exTreeFS {} ["/d", "/d/b"]).2).isSome = true :=
  (enumerateInputs_eats_directories exTreeFS {} ["/d", "/d/b"] (fun _ => .ok "d")
    0 {} (fun _ => zeroEntryCache) []).2

/-- C10: the totalSize counter accumulates exactly the sizes of the inputs
that stat as regular files (directory inputs and their contents contribute
nothing), while an emission from a directory input increments the found
counter without touching totalSize. -/
theorem enumerateInputs_totalSize_file_inputs_only (fs : FileSystem)
    (s0 : Stats) (inputs : List String) (s : Stats) (out : List inputItem)
    (input : String) (st : StatInfo) :
    ((enumerateInputs fs s0 inputs).1.totalSize
      = s0.totalSize + ((inputs.map (statFileSize fs)).sum))
    ∧ (fs.stat input = .ok st → st.isDir = true →
        (enumerateStep fs (s, out) input).1.totalSize = s.totalSize
        ∧ ((enumerateStep fs (s, out) input).2.length > out.length →
            (enumerateStep fs (s, out) input).1.found = s.found + 1)) := by
  constructor
  · exact enumerateInputs_totalSize_aux fs inputs (s0, [])
  · intro hstat hdir
    constructor
    · rw [enumerateStep_totalSize]
      simp [statFileSize, hstat, hdir]
    · intro hlen
      rcases htree : fs.EnumerateTree input with _ | ⟨it0, rest0⟩
      · simp only [enumerateStep, hstat, hdir, htree, eq_self_iff_true, if_true] at hlen
        omega
      · rcases herr : it0.Error with _ | msg
        · rcases hdir0 : it0.FileInfo.isDir
          · simp only [enumerateStep, hstat, hdir, htree, herr, hdir0, eq_self_iff_true,
              if_true, Bool.false_eq_true, if_false]
          · simp only [enumerateStep, hstat, hdir, htree, herr, hdir0, eq_self_iff_true,
              if_true] at hlen
            omega
        · simp only [enumerateStep, hstat, hdir, htree, herr, eq_self_iff_true,
            if_true] at hlen
          omega

/-- Witness for C10 on the concrete example filesystem: the directory input
/d contributes nothing to totalSize even though its file emission bumps
found. -/
theorem enumerateInputs_totalSize_file_inputs_only_witness :
    (enumerateInputs exTreeFS {} ["/d", "/d/b"]).1.totalSize = 0 + 4
    ∧ (enumerateStep exTreeFS ({}, []) "/d").1.found = Stats.found {} + 1 :=
  ⟨(enumerateInputs_totalSize_file_inputs_only exTreeFS {} ["/d", "/d/b"]
      {} [] "/d" ⟨0, 0, true⟩).1,
   ((enumerateInputs_totalSize_file_inputs_only exTreeFS {} ["/d", "/d/b"]
      {} [] "/d" ⟨0, 0, true⟩).2 rfl rfl).2 (by decide)⟩

/-- C4: AddEntry claims a time-bucketed relpath that is free in the table
(no existing entry is overwritten; every other binding except the tag is
preserved), the claimed suffix is the least free one so the "(<n>)" suffix
escalates only over taken candidates, tags/<basename> is bound to the new
node (overwriting), and a second AddEntry with the same basename, month and
stamp claims a distinct relpath of the same month/stamp_basename(suffix)
shape. -/
theorem AddEntry_spec (m : NodeMap) (node node2 : Node)
    (name month stamp : String) :
    mlookup m (AddEntry m node name month stamp).1 = none
    ∧ (∀ k v, mlookup m k = some v → k ≠ tagsName ++ "/" ++ name →
        mlookup (AddEntry m node name month stamp).2 k = some v)
    ∧ mlookup (AddEntry m node name month stamp).2
        (AddEntry m node name month stamp).1 = some node
    ∧ mlookup (AddEntry m node name month stamp).2
        (tagsName ++ "/" ++ name) = some node
    ∧ (∃ j, (AddEntry m node name month stamp).1 = nodePath month stamp name j
        ∧ ∀ i, i < j → mlookup m (nodePath month stamp name i) ≠ none)
    ∧ (AddEntry (AddEntry m node name month stamp).2 node2 name month stamp).1
        ≠ (AddEntry m node name month stamp).1
    ∧ (∃ j2, (AddEntry (AddEntry m node name month stamp).2 node2 name month stamp).1
        = nodePath month stamp name j2) := by
  obtain ⟨i0, hil, hfree⟩ := exists_free_suffix m month stamp name
  have spec1 := findFreeSuffix_spec m month stamp name (m.length + 1) 0
    ⟨i0, Nat.zero_le _, by omega, hfree⟩
  set sfx := findFreeSuffix m month stamp name (m.length + 1) 0 with hsfx
  have hA1 : (AddEntry m node name month stamp).1
      = nodePath month stamp name sfx := rfl
  have hA2 : (AddEntry m node name month stamp).2
      = minsert (minsert m (nodePath month stamp name sfx) node)
          (tagsName ++ "/" ++ name) node := rfl
  have hfree1 : mlookup m (nodePath month stamp name sfx) = none := spec1.2.1
  have htags : mlookup (AddEntry m node name month stamp).2
      (tagsName ++ "/" ++ name) = some node := by
    rw [hA2]
    exact mlookup_minsert_self _ _ _
  have hself : mlookup (AddEntry m node name month stamp).2
      (nodePath month stamp name sfx) = some node := by
    rw [hA2]
    by_cases hpt : nodePath month stamp name sfx = tagsName ++ "/" ++ name
    · rw [hpt]
      exact mlookup_minsert_self _ _ _
    · rw [mlookup_minsert_ne _ _ _ _ hpt]
      exact mlookup_minsert_self _ _ _
  have hpreserve : ∀ k v, mlookup m k = some v → k ≠ tagsName ++ "/" ++ name →
      mlookup (AddEntry m node name month stamp).2 k = some v := by
    intro k v hkv hkt
    rw [hA2, mlookup_minsert_ne _ _ _ _ hkt]
    have hkp : k ≠ nodePath month stamp name sfx := by
      intro he
      rw [he, hfree1] at hkv
      cases hkv
    rw [mlookup_minsert_ne _ _ _ _ hkp]
    exact hkv
  obtain ⟨i2, hil2, hfree2⟩ :=
    exists_free_suffix (AddEntry m node name month stamp).2 month stamp name
  have spec2 := findFreeSuffix_spec (AddEntry m node name month stamp).2
    month stamp name ((AddEntry m node name month stamp).2.length + 1) 0
    ⟨i2, Nat.zero_le _, by omega, hfree2⟩
  have hB1 : (AddEntry (AddEntry m node name month stamp).2 node2 name month stamp).1
      = nodePath month stamp name
          (findFreeSuffix (AddEntry m node name month stamp).2 month stamp name
            ((AddEntry m node name month stamp).2.length + 1) 0) := rfl
  have hdistinct :
      (AddEntry (AddEntry m node name month stamp).2 node2 name month stamp).1
        ≠ (AddEntry m node name month stamp).1 := by
    intro heq
    have hnone : mlookup (AddEntry m node name month stamp).2
        (AddEntry (AddEntry m node name month stamp).2 node2 name month stamp).1
          = none := by
      rw [hB1]
      exact spec2.2.1
    rw [heq, hA1, hself] at hnone
    cases hnone
  exact ⟨hA1 ▸ hfree1, hpreserve, hA1 ▸ hself, htags,
    ⟨sfx, hA1, fun i hi => spec1.2.2 i (Nat.zero_le _) hi⟩,
    hdistinct, ⟨_, hB1⟩⟩

/-- Witness for C4 at a concrete table holding one unrelated binding. -/
theorem AddEntry_spec_witness :
    mlookup (AddEntry [("k0", ⟨"e0", "c0"⟩)] ⟨"e1", "c1"⟩ "fictious"
      "2012-02" "2012-02-03_04-05-06").2 "k0" = some ⟨"e0", "c0"⟩ :=
  (AddEntry_spec [("k0", ⟨"e0", "c0"⟩)] ⟨"e1", "c1"⟩ ⟨"e2", "c2"⟩ "fictious"
    "2012-02" "2012-02-03_04-05-06").2.1 "k0" ⟨"e0", "c0"⟩ rfl (by decide)
